import Mathlib

/-!
Shallow embedding of `src/mlx_maze_viewer.py` (A-Maze-ing viewer).

The program is a tile-grid maze viewer: it builds a path of grid cells from a
move string, rasterizes path segments with Bresenham's algorithm, and drives a
forward/reverse reveal animation from a loop hook rate-limited by timestamps.

Modelling conventions:
* Python ints are `ℤ` (or `ℕ` where the source value is a length/index that is
  provably non-negative); Python `//` is `Int.fdiv` (floor division).
* `time.time()` results are passed in as explicit `ℚ` arguments (`now`); the
  float arithmetic on timestamps is modelled by exact rationals.
* MLX drawing primitives (`mlx_put_image_to_window`) are modelled as emitted
  `DrawCall` values; every drawing function returns the list of calls it makes,
  in order.  Functions that mutate the `Game` dataclass return the new `Game`.
* The image pointers (tiles, margin pixel, portal/line pixels) are identified
  by which asset they are (`Img`); the currently active asset set of the Python
  `game.assets` field is determined by `game.current_color`, so the tile image
  is modelled as `Img.tile current_color value`.
* The `while True` loop of `draw_line_bresenham` is embedded with explicit
  fuel (`bres_points`); the fuel bound chosen in `bres_points_opt` is proved
  sufficient (the loop terminates) in the theorem for the termination claim.
* `offset_point_towards` uses `math`-style `** 0.5`; at every call site of the
  program the vector is axis-aligned (adjacent cell centers), so the float
  computation is exact and agrees with the integer square root / exact rational
  model used here.  `int(...)` truncation toward zero is `ratTrunc`.
* Python list indexing `path[i]` is modelled by `getD` with a default; all
  indices used by the program are in range (out of range would raise in
  Python), and the theorems only exercise in-range indices.
-/

namespace AMazeIng

/-- Module-level constant `MARGIN`. -/
def MARGIN : ℤ := 2

/-- Module-level constant `TILE_SIZE`. -/
def TILE_SIZE : ℤ := 32

/-- Module-level constant `COLOR_CYCLE`. -/
def COLOR_CYCLE : List String := ["green", "pink", "rainbow"]

/-- Module-level constant `PORTAL_OUTER_RADIUS`. -/
def PORTAL_OUTER_RADIUS : ℤ := 10

/-- Module-level constant `LINE_THICKNESS`. -/
def LINE_THICKNESS : ℤ := 4

/-- Identity of an image handle passed to `mlx_put_image_to_window`. -/
inductive Img where
  | tile (color : String) (val : ℕ)
  | marginPx (color : String)
  | greenPx
  | pinkPx
  | redPx
  | blackPx
deriving DecidableEq, Repr

/-- One call `mlx_put_image_to_window(mlx_ptr, win_ptr, img, x, y)`. -/
structure DrawCall where
  img : Img
  x : ℤ
  y : ℤ
deriving DecidableEq, Repr

/-- The mutable `Game` dataclass (the MLX pointers and preloaded asset
dictionaries are external handles; the active asset set is determined by
`current_color`). -/
structure Game where
  matrix : List (List ℕ)
  entry : ℤ × ℤ
  exit_ : ℤ × ℤ
  moves : List Char
  color_index : ℕ
  current_color : String
  tile_size : ℤ
  margin : ℤ
  win_width : ℤ
  win_height : ℤ
  path : List (ℤ × ℤ)
  path_progress : ℤ
  animating : Bool
  reverse_animating : Bool
  last_update : ℚ
  animation_speed : ℚ
deriving DecidableEq, Repr

/-- Python `range(n)` as a list of integers. -/
def pyRange (n : ℤ) : List ℤ :=
  (List.range n.toNat).map (fun i : ℕ => (i : ℤ))

/-- Python `range(a, b)` as a list of integers. -/
def pyRange2 (a b : ℤ) : List ℤ :=
  (List.range (b - a).toNat).map (fun i : ℕ => a + (i : ℤ))

/-- Python `int(q)`: truncation toward zero. -/
def ratTrunc (q : ℚ) : ℤ :=
  if 0 ≤ q then ⌊q⌋ else -⌊-q⌋

/-- `game.path[i]` (all uses are in range). -/
def pathGet (g : Game) (i : ℤ) : ℤ × ℤ :=
  g.path.getD i.toNat (0, 0)

/-- Helper of `build_path_from_moves`: the points appended by the `for move in
moves` loop, starting from current position `(row, col)`. -/
def path_steps (row col : ℤ) : List Char → List (ℤ × ℤ)
  | [] => []
  | m :: rest =>
    if m = 'N' then (row - 1, col) :: path_steps (row - 1) col rest
    else if m = 'S' then (row + 1, col) :: path_steps (row + 1) col rest
    else if m = 'E' then (row, col + 1) :: path_steps row (col + 1) rest
    else if m = 'W' then (row, col - 1) :: path_steps row (col - 1) rest
    else path_steps row col rest

/-- `build_path_from_moves(entry, moves)`. -/
def build_path_from_moves (entry : ℤ × ℤ) (moves : List Char) : List (ℤ × ℤ) :=
  entry :: path_steps entry.1 entry.2 moves

/-- `cell_center_px(game, pos)`. -/
def cell_center_px (g : Game) (pos : ℤ × ℤ) : ℤ × ℤ :=
  (g.margin + pos.2 * g.tile_size + g.tile_size.fdiv 2,
   g.margin + pos.1 * g.tile_size + g.tile_size.fdiv 2)

/-- `(dx*dx + dy*dy) ** 0.5` of `offset_point_towards`, as an integer square
root (exact at every call site of the program, where the vector is
axis-aligned). -/
def vec_length (dx dy : ℤ) : ℤ :=
  Int.sqrt (dx * dx + dy * dy)

/-- `offset_point_towards(x0, y0, x1, y1, offset)`. -/
def offset_point_towards (x0 y0 x1 y1 offset : ℤ) : ℤ × ℤ :=
  let dx := x1 - x0
  let dy := y1 - y0
  let length := vec_length dx dy
  if length = 0 then (x0, y0)
  else
    let nx : ℚ := (dx : ℚ) / (length : ℚ)
    let ny : ℚ := (dy : ℚ) / (length : ℚ)
    (ratTrunc ((x0 : ℚ) + nx * (offset : ℚ)), ratTrunc ((y0 : ℚ) + ny * (offset : ℚ)))

/-- The `while True` loop of `draw_line_bresenham`, with explicit fuel,
returning the sequence of stepped points `(x0, y0)` at which the loop body
draws.  `none` means the fuel ran out (never happens for the fuel bound used
by `bres_points_opt`, as proved below). -/
def bres_points (x1 y1 sx sy dx dy : ℤ) : ℕ → ℤ → ℤ → ℤ → Option (List (ℤ × ℤ))
  | 0, _, _, _ => none
  | fuel + 1, x0, y0, err =>
    if x0 = x1 ∧ y0 = y1 then some [(x0, y0)]
    else
      let e2 := 2 * err
      let x0' := if dy ≤ e2 then x0 + sx else x0
      let err1 := if dy ≤ e2 then err + dy else err
      let y0' := if e2 ≤ dx then y0 + sy else y0
      let err2 := if e2 ≤ dx then err1 + dx else err1
      match bres_points x1 y1 sx sy dx dy fuel x0' y0' err2 with
      | none => none
      | some ps => some ((x0, y0) :: ps)

/-- Fuel bound used for the Bresenham loop. -/
def bres_fuel (x0 y0 x1 y1 : ℤ) : ℕ :=
  (x1 - x0).natAbs + (y1 - y0).natAbs + 1

/-- `draw_line_bresenham`'s loop with its initialisation (`dx`, `sx`, `dy`,
`sy`, `err`) and the fuel bound. -/
def bres_points_opt (x0 y0 x1 y1 : ℤ) : Option (List (ℤ × ℤ)) :=
  let dx := |x1 - x0|
  let sx : ℤ := if x0 < x1 then 1 else -1
  let dy := -|y1 - y0|
  let sy : ℤ := if y0 < y1 then 1 else -1
  let err := dx + dy
  bres_points x1 y1 sx sy dx dy (bres_fuel x0 y0 x1 y1) x0 y0 err

/-- The stepped points of `draw_line_bresenham`. -/
def draw_line_points (x0 y0 x1 y1 : ℤ) : List (ℤ × ℤ) :=
  (bres_points_opt x0 y0 x1 y1).getD []

/-- The draw calls made by one iteration of the Bresenham loop body at stepped
point `(x0, y0)`: one pixel if `thickness <= 1`, else the filled square of the
two nested `for` loops over `range(-t, t + 1)`. -/
def thick_calls (img : Img) (thickness x0 y0 : ℤ) : List DrawCall :=
  if thickness ≤ 1 then [⟨img, x0, y0⟩]
  else
    let t := thickness.fdiv 2
    (pyRange2 (-t) (t + 1)).flatMap (fun oy =>
      (pyRange2 (-t) (t + 1)).map (fun ox => ⟨img, x0 + ox, y0 + oy⟩))

/-- `draw_line_bresenham(game, x0, y0, x1, y1, pixel_img, thickness)`:
all draw calls, in order. -/
def draw_line_bresenham (g : Game) (x0 y0 x1 y1 : ℤ) (img : Img) (thickness : ℤ) :
    List DrawCall :=
  let _ := g
  (draw_line_points x0 y0 x1 y1).flatMap (fun p => thick_calls img thickness p.1 p.2)

/-- `draw_path_segment(game, a, b, index, pixel_img)`. -/
def draw_path_segment (g : Game) (a b : ℤ × ℤ) (index : ℤ) (img : Img) :
    List DrawCall :=
  let pa := cell_center_px g a
  let pb := cell_center_px g b
  let pa' := if index = 1 then
      offset_point_towards pa.1 pa.2 pb.1 pb.2 (PORTAL_OUTER_RADIUS + 2)
    else pa
  let pb' := if index = (g.path.length : ℤ) - 1 then
      offset_point_towards pb.1 pb.2 pa'.1 pa'.2 (PORTAL_OUTER_RADIUS + 2)
    else pb
  draw_line_bresenham g pa'.1 pa'.2 pb'.1 pb'.2 img LINE_THICKNESS

/-- `fill_margins_with_background(game)`. -/
def fill_margins_with_background (g : Game) : List DrawCall :=
  let margin_px := Img.marginPx g.current_color
  (pyRange g.margin).flatMap (fun y =>
    (pyRange g.win_width).flatMap (fun x =>
      [⟨margin_px, x, y⟩, ⟨margin_px, x, g.win_height - 1 - y⟩]))
  ++ (pyRange g.margin).flatMap (fun x =>
    (pyRange g.win_height).flatMap (fun y =>
      [⟨margin_px, x, y⟩, ⟨margin_px, g.win_width - 1 - x, y⟩]))

/-- `draw_maze_tiles(game)`: sets `game.path_progress = 0`, then draws the
tile grid only when no animation is active. -/
def draw_maze_tiles (g : Game) : Game × List DrawCall :=
  let g' := { g with path_progress := 0 }
  let calls :=
    if g.animating = false ∧ g.reverse_animating = false then
      (List.range g.matrix.length).flatMap (fun r =>
        (List.range (g.matrix.getD r []).length).flatMap (fun c =>
          let val := (g.matrix.getD r []).getD c 0 % 16
          [⟨Img.tile g.current_color val,
            g.margin + (c : ℤ) * g.tile_size,
            g.margin + (r : ℤ) * g.tile_size⟩]))
    else []
  (g', calls)

/-- `draw_portal_marker(game, pos, pixel_img)`. -/
def draw_portal_marker (g : Game) (pos : ℤ × ℤ) (img : Img) : List DrawCall :=
  let cx := g.margin + pos.2 * g.tile_size + g.tile_size.fdiv 2
  let cy := g.margin + pos.1 * g.tile_size + g.tile_size.fdiv 2
  let outer_r := PORTAL_OUTER_RADIUS
  let inner_r : ℤ := 7
  let outer2 := outer_r * outer_r
  let inner2 := inner_r * inner_r
  (pyRange2 (-outer_r) (outer_r + 1)).flatMap (fun dy =>
    (pyRange2 (-outer_r) (outer_r + 1)).flatMap (fun dx =>
      let d2 := dx * dx + dy * dy
      if inner2 ≤ d2 ∧ d2 ≤ outer2 then [⟨img, cx + dx, cy + dy⟩] else []))

/-- `draw_path_upto(game, progress_points)`. -/
def draw_path_upto (g : Game) (progress_points : ℤ) : List DrawCall :=
  if progress_points ≤ 1 then []
  else
    (pyRange2 1 progress_points).flatMap (fun i =>
      draw_path_segment g (pathGet g (i - 1)) (pathGet g i) i Img.redPx)

/-- `redraw_all(game)`: the five phases in order.  Note `draw_maze_tiles` has
already set `path_progress` to 0 when `draw_path_upto` reads it. -/
def redraw_all (g : Game) : Game × List DrawCall :=
  let c1 := fill_margins_with_background g
  let tm := draw_maze_tiles g
  let g1 := tm.1
  let c2 := tm.2
  let c3 := draw_path_upto g1 g1.path_progress
  let c4 := draw_portal_marker g1 g1.entry Img.greenPx
  let c5 := draw_portal_marker g1 g1.exit_ Img.pinkPx
  (g1, c1 ++ c2 ++ c3 ++ c4 ++ c5)

/-- `key_handler(keycode, game)`; `now` is the value `time.time()` would
return during the call.  The ESC branch additionally requests loop exit from
the host (an external side effect); the game state is unchanged there. -/
def key_handler (keycode : ℤ) (now : ℚ) (g : Game) : Game × List DrawCall :=
  if keycode = 65307 then (g, [])
  else if keycode = 99 then
    let ci := (g.color_index + 1) % COLOR_CYCLE.length
    let g' := { g with color_index := ci, current_color := COLOR_CYCLE.getD ci "" }
    redraw_all g'
  else if keycode = 115 then
    if g.animating = true ∨ g.reverse_animating = true then (g, [])
    else if (g.path.length : ℤ) ≤ g.path_progress then
      ({ g with reverse_animating := true, last_update := now }, [])
    else
      ({ g with animating := true, last_update := now }, [])
  else (g, [])

/-- `loop_hook(game)`; `now` is the value of `time.time()` at this tick. -/
def loop_hook (now : ℚ) (g : Game) : Game × List DrawCall :=
  if g.animating = false ∧ g.reverse_animating = false then (g, [])
  else if now - g.last_update < g.animation_speed then (g, [])
  else
    let g := { g with last_update := now }
    if g.animating = true then
      if g.path_progress < (g.path.length : ℤ) then
        if g.path_progress = 0 then ({ g with path_progress := 1 }, [])
        else
          let i := g.path_progress
          ({ g with path_progress := i + 1 },
           draw_path_segment g (pathGet g (i - 1)) (pathGet g i) i Img.redPx)
      else ({ g with animating := false }, [])
    else
      if 1 < g.path_progress then
        let i := g.path_progress - 1
        ({ g with path_progress := g.path_progress - 1 },
         draw_path_segment g (pathGet g (i - 1)) (pathGet g i) i Img.blackPx)
      else ({ g with reverse_animating := false }, [])

/-- Iterate `loop_hook` over ticks at timestamps `ts 0, ts 1, ...`. -/
def runTicks (ts : ℕ → ℚ) (g : Game) : ℕ → Game
  | 0 => g
  | i + 1 => (loop_hook (ts i) (runTicks ts g i)).1

/-- The invariant `0 ≤ path_progress ≤ len(path)`. -/
def ProgressInv (g : Game) : Prop :=
  0 ≤ g.path_progress ∧ g.path_progress ≤ (g.path.length : ℤ)

instance (g : Game) : Decidable (ProgressInv g) := by
  unfold ProgressInv
  infer_instance

/-- One grid step: the two coordinates differ by exactly one unit along
exactly one axis. -/
def stepAdj (p q : ℤ × ℤ) : Prop :=
  (q.1 - p.1, q.2 - p.2) ∈ [((-1 : ℤ), (0 : ℤ)), (1, 0), (0, 1), (0, -1)]

/-- A concrete game used to instantiate the theorems: the end-to-end scenario
of the spec (entry `(0,0)`, moves `"EESS"`), green theme, idle at progress 0. -/
def sampleGame : Game where
  matrix := [[1, 2], [3, 4]]
  entry := (0, 0)
  exit_ := (2, 2)
  moves := ['E', 'E', 'S', 'S']
  color_index := 0
  current_color := "green"
  tile_size := 32
  margin := 2
  win_width := 68
  win_height := 68
  path := build_path_from_moves (0, 0) ['E', 'E', 'S', 'S']
  path_progress := 0
  animating := false
  reverse_animating := false
  last_update := 0
  animation_speed := 1

/-- `sampleGame` with the forward animation running. -/
def sampleGameAnim : Game :=
  { sampleGame with animating := true, path_progress := 2 }

section Lemmas

theorem mem_pyRange2 {a b x : ℤ} : x ∈ pyRange2 a b ↔ a ≤ x ∧ x < b := by
  unfold pyRange2
  constructor
  · intro hx
    obtain ⟨i, hi, hix⟩ := List.mem_map.mp hx
    rw [List.mem_range] at hi
    omega
  · intro h
    exact List.mem_map.mpr ⟨(x - a).toNat, List.mem_range.mpr (by omega), by omega⟩

theorem loop_hook_idle (t : ℚ) (g : Game)
    (h1 : g.animating = false) (h2 : g.reverse_animating = false) :
    loop_hook t g = (g, []) := by
  simp [loop_hook, h1, h2]

theorem loop_hook_late (t : ℚ) (g : Game)
    (h : t - g.last_update < g.animation_speed) :
    loop_hook t g = (g, []) := by
  by_cases h1 : g.animating = false ∧ g.reverse_animating = false
  · simp [loop_hook, h1.1, h1.2]
  · unfold loop_hook
    rw [if_neg h1, if_pos h]

theorem loop_hook_fwd_start (t : ℚ) (g : Game)
    (ha : g.animating = true)
    (ht : g.animation_speed ≤ t - g.last_update)
    (hp : g.path_progress = 0) (hN : 0 < g.path.length) :
    loop_hook t g = ({ g with path_progress := 1, last_update := t }, []) := by
  have hlt : g.path_progress < (g.path.length : ℤ) := by
    rw [hp]; exact_mod_cast hN
  simp [loop_hook, ha, not_lt.mpr ht, hlt, hp, List.ne_nil_of_length_pos hN]

theorem loop_hook_fwd_step (t : ℚ) (g : Game)
    (ha : g.animating = true)
    (ht : g.animation_speed ≤ t - g.last_update)
    (hp : g.path_progress ≠ 0)
    (hlt : g.path_progress < (g.path.length : ℤ)) :
    (loop_hook t g).1 = { g with path_progress := g.path_progress + 1, last_update := t } := by
  simp [loop_hook, ha, not_lt.mpr ht, hlt, hp]

theorem loop_hook_fwd_done (t : ℚ) (g : Game)
    (ha : g.animating = true)
    (ht : g.animation_speed ≤ t - g.last_update)
    (hge : (g.path.length : ℤ) ≤ g.path_progress) :
    loop_hook t g = ({ g with animating := false, last_update := t }, []) := by
  simp [loop_hook, ha, not_lt.mpr ht, not_lt.mpr hge]

theorem loop_hook_rev_step (t : ℚ) (g : Game)
    (ha : g.animating = false) (hr : g.reverse_animating = true)
    (ht : g.animation_speed ≤ t - g.last_update)
    (hp : 1 < g.path_progress) :
    (loop_hook t g).1 = { g with path_progress := g.path_progress - 1, last_update := t } := by
  simp [loop_hook, ha, hr, not_lt.mpr ht, hp]

theorem loop_hook_rev_done (t : ℚ) (g : Game)
    (ha : g.animating = false) (hr : g.reverse_animating = true)
    (ht : g.animation_speed ≤ t - g.last_update)
    (hp : ¬1 < g.path_progress) :
    loop_hook t g = ({ g with reverse_animating := false, last_update := t }, []) := by
  simp [loop_hook, ha, hr, not_lt.mpr ht, hp]

theorem key_s_fwd (t : ℚ) (g : Game)
    (ha : g.animating = false) (hr : g.reverse_animating = false)
    (hp : g.path_progress < (g.path.length : ℤ)) :
    key_handler 115 t g = ({ g with animating := true, last_update := t }, []) := by
  simp [key_handler, ha, hr, not_le.mpr hp]

theorem key_s_rev (t : ℚ) (g : Game)
    (ha : g.animating = false) (hr : g.reverse_animating = false)
    (hp : (g.path.length : ℤ) ≤ g.path_progress) :
    key_handler 115 t g = ({ g with reverse_animating := true, last_update := t }, []) := by
  simp [key_handler, ha, hr, hp]

theorem stepAdj_north (r c : ℤ) : stepAdj (r, c) (r - 1, c) := by
  simp [stepAdj, Prod.mk.injEq]

theorem stepAdj_south (r c : ℤ) : stepAdj (r, c) (r + 1, c) := by
  simp [stepAdj, Prod.mk.injEq]

theorem stepAdj_east (r c : ℤ) : stepAdj (r, c) (r, c + 1) := by
  simp [stepAdj, Prod.mk.injEq]

theorem stepAdj_west (r c : ℤ) : stepAdj (r, c) (r, c - 1) := by
  simp [stepAdj, Prod.mk.injEq]

theorem path_steps_length (ms : List Char) : ∀ r c : ℤ,
    (path_steps r c ms).length =
      ms.countP (fun m => m == 'N' || m == 'S' || m == 'E' || m == 'W') := by
  induction ms with
  | nil => intro r c; rfl
  | cons m rest ih =>
    intro r c
    unfold path_steps
    split_ifs <;> simp_all [List.countP_cons]

theorem path_steps_chain (ms : List Char) : ∀ r c : ℤ,
    List.Chain stepAdj (r, c) (path_steps r c ms) := by
  induction ms with
  | nil => intro r c; exact List.Chain.nil
  | cons m rest ih =>
    intro r c
    unfold path_steps
    split_ifs with h1 h2 h3 h4
    · exact List.Chain.cons (stepAdj_north r c) (ih _ _)
    · exact List.Chain.cons (stepAdj_south r c) (ih _ _)
    · exact List.Chain.cons (stepAdj_east r c) (ih _ _)
    · exact List.Chain.cons (stepAdj_west r c) (ih _ _)
    · exact ih _ _

end Lemmas

/-- **C4**: `build_path_from_moves` starts at the entry coordinate, has length
1 plus the number of cardinal characters of the move string (non-cardinal
characters contribute no point), consecutive points differ by exactly one unit
along exactly one axis, and `build_path_from_moves((0,0), "NXE")` is
`[(0,0), (-1,0), (-1,1)]`. -/
theorem build_path_spec (entry : ℤ × ℤ) (moves : List Char) :
    (build_path_from_moves entry moves).head? = some entry ∧
    (build_path_from_moves entry moves).length =
      1 + moves.countP (fun m => m == 'N' || m == 'S' || m == 'E' || m == 'W') ∧
    List.Chain' stepAdj (build_path_from_moves entry moves) ∧
    build_path_from_moves (0, 0) ['N', 'X', 'E'] = [(0, 0), (-1, 0), (-1, 1)] := by
  refine ⟨rfl, ?_, ?_, by decide⟩
  · show (path_steps entry.1 entry.2 moves).length + 1 = _
    rw [path_steps_length]
    omega
  · show List.Chain stepAdj entry (path_steps entry.1 entry.2 moves)
    have h := path_steps_chain moves entry.1 entry.2
    simpa using h

/-- **C10**: `offset_point_towards(p, p, d) = p` for every point and offset
(the zero-length-vector fallback), and the division by the vector length is
never a division by zero: whenever the divisor is used (nonzero vector), the
length is nonzero. -/
theorem offset_towards_safety :
    (∀ x y d : ℤ, offset_point_towards x y x y d = (x, y)) ∧
    (∀ dx dy : ℤ, ¬(dx = 0 ∧ dy = 0) → vec_length dx dy ≠ 0) := by
  constructor
  · intro x y d
    have hs : vec_length 0 0 = 0 := by decide
    simp [offset_point_towards, hs]
  · intro dx dy h h0
    have hnn : 0 ≤ dx * dx + dy * dy := by
      have u1 := mul_self_nonneg dx
      have u2 := mul_self_nonneg dy
      linarith
    have h1 : Nat.sqrt (dx * dx + dy * dy).toNat = 0 := by
      unfold vec_length Int.sqrt at h0
      exact_mod_cast h0
    have h2 : dx * dx + dy * dy = 0 := by
      have := Nat.sqrt_eq_zero.mp h1
      omega
    have hdx : dx = 0 := by
      have hle : dx * dx ≤ 0 := by nlinarith [mul_self_nonneg dy]
      exact mul_self_eq_zero.mp (le_antisymm hle (mul_self_nonneg dx))
    have hdy : dy = 0 := by
      have hle : dy * dy ≤ 0 := by nlinarith [mul_self_nonneg dx]
      exact mul_self_eq_zero.mp (le_antisymm hle (mul_self_nonneg dy))
    exact h ⟨hdx, hdy⟩

/-- Witness for the safety theorem at concrete inputs. -/
theorem offset_towards_safety_witness :
    offset_point_towards 5 7 5 7 12 = (5, 7) ∧ vec_length 3 0 ≠ 0 :=
  ⟨offset_towards_safety.1 5 7 12, offset_towards_safety.2 3 0 (by decide)⟩

/-- **C1** (evaluation of the code at the failing input): at an idle state
with `path_progress = 3`, handling the theme key 'c' leaves the animation
flags unchanged but resets `path_progress` to 0 (because `redraw_all` calls
`draw_maze_tiles`, which zeroes it) — contradicting the specification that a
theme change does not alter the progress. -/
theorem theme_key_resets_progress_code :
    ({ sampleGame with path_progress := 3 } : Game).path_progress = 3 ∧
    (key_handler 99 0 { sampleGame with path_progress := 3 }).1.path_progress = 0 ∧
    (key_handler 99 0 { sampleGame with path_progress := 3 }).1.animating
      = sampleGame.animating ∧
    (key_handler 99 0 { sampleGame with path_progress := 3 }).1.reverse_animating
      = sampleGame.reverse_animating := by
  refine ⟨rfl, rfl, rfl, rfl⟩

/-- **C2**: `redraw_all` returns a state whose only changed field is
`path_progress`, now 0; its draw-call sequence is the margin fill, then the
tile phase, then (an empty partial-path phase) the two portal markers; and
the tile phase emits calls only when no animation is active. -/
theorem redraw_all_resets_progress (g : Game) :
    (redraw_all g).1 = { g with path_progress := 0 } ∧
    (redraw_all g).2 =
      fill_margins_with_background g ++ (draw_maze_tiles g).2 ++
        (draw_portal_marker g g.entry Img.greenPx ++
          draw_portal_marker g g.exit_ Img.pinkPx) ∧
    ((g.animating = true ∨ g.reverse_animating = true) → (draw_maze_tiles g).2 = []) := by
  refine ⟨rfl, ?_, ?_⟩
  · show fill_margins_with_background g ++ (draw_maze_tiles g).2 ++
        draw_path_upto { g with path_progress := 0 } 0 ++
        draw_portal_marker g g.entry Img.greenPx ++
        draw_portal_marker g g.exit_ Img.pinkPx = _
    have h3 : draw_path_upto { g with path_progress := 0 } 0 = [] := rfl
    rw [h3, List.append_nil, List.append_assoc]
  · intro h
    rcases h with h | h <;> simp [draw_maze_tiles, h]

/-- Witness for the animation-active conjunct of the redraw theorem. -/
theorem redraw_all_resets_progress_witness :
    (sampleGameAnim.animating = true ∨ sampleGameAnim.reverse_animating = true) ∧
    (draw_maze_tiles sampleGameAnim).2 = [] :=
  ⟨Or.inl rfl, (redraw_all_resets_progress sampleGameAnim).2.2 (Or.inl rfl)⟩

/-- **C5**: `redraw_all` is idempotent: a second call on the state returned
by the first produces the identical state and the identical draw-call
sequence. -/
theorem redraw_all_idempotent (g : Game) :
    redraw_all ((redraw_all g).1) = redraw_all g := rfl

/-- **C7**: `0 ≤ path_progress ≤ len(path)` holds in the initial state
(progress 0 and a path built by `build_path_from_moves`, which is never
empty), and is preserved by every tick, every key press, and every full
redraw. -/
theorem progress_invariant :
    (∀ (e : ℤ × ℤ) (m : List Char) (g : Game),
        g.path = build_path_from_moves e m → g.path_progress = 0 →
        ProgressInv g ∧ 1 ≤ g.path.length) ∧
    (∀ (t : ℚ) (g : Game), ProgressInv g → ProgressInv (loop_hook t g).1) ∧
    (∀ (k : ℤ) (t : ℚ) (g : Game), ProgressInv g → ProgressInv (key_handler k t g).1) ∧
    (∀ g : Game, ProgressInv g → ProgressInv (redraw_all g).1) := by
  refine ⟨?_, ?_, ?_, ?_⟩
  · intro e m g hpath hp
    refine ⟨⟨by rw [hp], ?_⟩, ?_⟩
    · rw [hp]
      exact_mod_cast Nat.zero_le _
    · rw [hpath, build_path_from_moves]
      simp
  · intro t g h
    obtain ⟨h0, hlen⟩ := h
    by_cases hc1 : g.animating = false ∧ g.reverse_animating = false
    · rw [loop_hook_idle t g hc1.1 hc1.2]
      exact ⟨h0, hlen⟩
    by_cases hc2 : t - g.last_update < g.animation_speed
    · rw [loop_hook_late t g hc2]
      exact ⟨h0, hlen⟩
    have ht := not_lt.mp hc2
    by_cases ha : g.animating = true
    · by_cases hlt : g.path_progress < (g.path.length : ℤ)
      · by_cases hz : g.path_progress = 0
        · have hN : 0 < g.path.length := by omega
          rw [loop_hook_fwd_start t g ha ht hz hN]
          refine ⟨?_, ?_⟩
          · show (0 : ℤ) ≤ 1
            omega
          · show (1 : ℤ) ≤ (g.path.length : ℤ)
            omega
        · rw [loop_hook_fwd_step t g ha ht hz hlt]
          refine ⟨?_, ?_⟩
          · show (0 : ℤ) ≤ g.path_progress + 1
            omega
          · show g.path_progress + 1 ≤ (g.path.length : ℤ)
            omega
      · rw [loop_hook_fwd_done t g ha ht (not_lt.mp hlt)]
        exact ⟨h0, hlen⟩
    · have ha2 : g.animating = false := by
        revert ha
        cases g.animating <;> simp
      have hr : g.reverse_animating = true := by
        cases hb : g.reverse_animating
        · exact absurd ⟨ha2, hb⟩ hc1
        · rfl
      by_cases hp1 : 1 < g.path_progress
      · rw [loop_hook_rev_step t g ha2 hr ht hp1]
        refine ⟨?_, ?_⟩
        · show (0 : ℤ) ≤ g.path_progress - 1
          omega
        · show g.path_progress - 1 ≤ (g.path.length : ℤ)
          omega
      · rw [loop_hook_rev_done t g ha2 hr ht hp1]
        exact ⟨h0, hlen⟩
  · intro k t g h
    obtain ⟨h0, hlen⟩ := h
    unfold key_handler
    split_ifs <;>
      first
        | exact ⟨h0, hlen⟩
        | exact ⟨le_refl 0, by
            show (0 : ℤ) ≤ (g.path.length : ℤ)
            exact_mod_cast Nat.zero_le _⟩
  · intro g h
    refine ⟨le_refl 0, ?_⟩
    show (0 : ℤ) ≤ (g.path.length : ℤ)
    exact_mod_cast Nat.zero_le _

/-- Witness for the invariant theorem at the sample game. -/
theorem progress_invariant_witness :
    ProgressInv sampleGame ∧
    ProgressInv (loop_hook 1 sampleGame).1 ∧
    ProgressInv (key_handler 99 0 sampleGame).1 ∧
    ProgressInv (redraw_all sampleGame).1 :=
  ⟨(progress_invariant.1 (0, 0) ['E', 'E', 'S', 'S'] sampleGame rfl rfl).1,
   progress_invariant.2.1 1 sampleGame (by decide),
   progress_invariant.2.2.1 99 0 sampleGame (by decide),
   progress_invariant.2.2.2 sampleGame (by decide)⟩

/-- **C6**: rate limiting — with an animation active, if after one tick a
second tick arrives less than `animation_speed` after the last accepted
update, the second tick mutates nothing (the two ticks together perform at
most one state mutation). -/
theorem tick_rate_limited (g : Game) (t1 t2 : ℚ)
    (hactive : g.animating = true ∨ g.reverse_animating = true)
    (h : t2 - (loop_hook t1 g).1.last_update < g.animation_speed) :
    loop_hook t2 (loop_hook t1 g).1 = ((loop_hook t1 g).1, []) := by
  have hspeed : (loop_hook t1 g).1.animation_speed = g.animation_speed := by
    unfold loop_hook
    dsimp only
    split_ifs <;> rfl
  have h' : t2 - (loop_hook t1 g).1.last_update < (loop_hook t1 g).1.animation_speed := by
    rw [hspeed]
    exact h
  exact loop_hook_late t2 _ h'

/-- Witness for the rate-limiting theorem: an accepted tick at `t = 10`
followed by a tick at `t = 21/2` (elapsed `1/2 <` speed `1`). -/
theorem tick_rate_limited_witness :
    (sampleGameAnim.animating = true ∨ sampleGameAnim.reverse_animating = true) ∧
    (21 : ℚ) / 2 - (loop_hook 10 sampleGameAnim).1.last_update
      < sampleGameAnim.animation_speed ∧
    loop_hook ((21 : ℚ) / 2) (loop_hook 10 sampleGameAnim).1
      = ((loop_hook 10 sampleGameAnim).1, []) := by
  have hstep := loop_hook_fwd_step 10 sampleGameAnim rfl
    (by show (1 : ℚ) ≤ 10 - 0; norm_num) (by decide) (by decide)
  have h2 : (21 : ℚ) / 2 - (loop_hook 10 sampleGameAnim).1.last_update
      < sampleGameAnim.animation_speed := by
    rw [hstep]
    show (21 : ℚ) / 2 - 10 < 1
    norm_num
  exact ⟨Or.inl rfl, h2, tick_rate_limited sampleGameAnim 10 ((21 : ℚ) / 2) (Or.inl rfl) h2⟩

/-- **C8**: for a path of length ≥ 3, segment index 1 is drawn from a start
point offset from the true center of its first cell by the portal clearance
toward the second cell's center (end point at the true center); the last
segment symmetrically offsets only its end point; interior segments use the
true, unshortened cell centers at both ends. -/
theorem segment_shortening (g : Game) (img : Img) (h3 : 3 ≤ g.path.length) :
    (∀ a b : ℤ × ℤ,
      draw_path_segment g a b 1 img =
        draw_line_bresenham g
          (offset_point_towards (cell_center_px g a).1 (cell_center_px g a).2
            (cell_center_px g b).1 (cell_center_px g b).2 (PORTAL_OUTER_RADIUS + 2)).1
          (offset_point_towards (cell_center_px g a).1 (cell_center_px g a).2
            (cell_center_px g b).1 (cell_center_px g b).2 (PORTAL_OUTER_RADIUS + 2)).2
          (cell_center_px g b).1 (cell_center_px g b).2 img LINE_THICKNESS) ∧
    (∀ (a b : ℤ × ℤ) (i : ℤ), 1 < i → i < (g.path.length : ℤ) - 1 →
      draw_path_segment g a b i img =
        draw_line_bresenham g (cell_center_px g a).1 (cell_center_px g a).2
          (cell_center_px g b).1 (cell_center_px g b).2 img LINE_THICKNESS) ∧
    (∀ a b : ℤ × ℤ,
      draw_path_segment g a b ((g.path.length : ℤ) - 1) img =
        draw_line_bresenham g (cell_center_px g a).1 (cell_center_px g a).2
          (offset_point_towards (cell_center_px g b).1 (cell_center_px g b).2
            (cell_center_px g a).1 (cell_center_px g a).2 (PORTAL_OUTER_RADIUS + 2)).1
          (offset_point_towards (cell_center_px g b).1 (cell_center_px g b).2
            (cell_center_px g a).1 (cell_center_px g a).2 (PORTAL_OUTER_RADIUS + 2)).2
          img LINE_THICKNESS) := by
  refine ⟨?_, ?_, ?_⟩
  · intro a b
    have hne : ¬((1 : ℤ) = (g.path.length : ℤ) - 1) := by omega
    simp [draw_path_segment, hne]
  · intro a b i hi1 hi2
    have h1 : ¬(i = (1 : ℤ)) := by omega
    have h2 : ¬(i = (g.path.length : ℤ) - 1) := by omega
    simp [draw_path_segment, h1, h2]
  · intro a b
    have h1 : ¬((g.path.length : ℤ) - 1 = 1) := by omega
    simp [draw_path_segment, h1]

theorem runTicks_forward (ts : ℕ → ℚ) (g : Game)
    (ha : g.animating = true) (hr : g.reverse_animating = false)
    (h0 : g.animation_speed ≤ ts 0 - g.last_update)
    (hs : ∀ i, g.animation_speed ≤ ts (i + 1) - ts i)
    (hp : g.path_progress = 0) :
    ∀ i, i ≤ g.path.length →
      (runTicks ts g i).path_progress = (i : ℤ) ∧
      (runTicks ts g i).animating = true ∧
      (runTicks ts g i).reverse_animating = false ∧
      (runTicks ts g i).last_update = (if i = 0 then g.last_update else ts (i - 1)) ∧
      (runTicks ts g i).path = g.path ∧
      (runTicks ts g i).animation_speed = g.animation_speed := by
  intro i
  induction i with
  | zero =>
    intro _
    refine ⟨?_, ha, hr, ?_, rfl, rfl⟩
    · show g.path_progress = ((0 : ℕ) : ℤ)
      rw [hp]
      simp
    · simp [runTicks]
  | succ n ihn =>
    intro hle
    obtain ⟨hpp, han, hrn, hlun, hpathn, hspeedn⟩ := ihn (Nat.le_of_succ_le hle)
    have hts : (runTicks ts g n).animation_speed ≤
        ts n - (runTicks ts g n).last_update := by
      rw [hspeedn, hlun]
      cases n with
      | zero => simpa using h0
      | succ m => simpa using hs m
    have hlt : (runTicks ts g n).path_progress <
        ((runTicks ts g n).path.length : ℤ) := by
      rw [hpp, hpathn]
      exact_mod_cast Nat.lt_of_succ_le hle
    have hrun : runTicks ts g (n + 1) = (loop_hook (ts n) (runTicks ts g n)).1 := rfl
    by_cases hz : n = 0
    · subst hz
      have hz' : (runTicks ts g 0).path_progress = 0 := hpp
      have hN : 0 < (runTicks ts g 0).path.length := by
        rw [hpathn]
        omega
      rw [hrun, loop_hook_fwd_start (ts 0) _ han hts hz' hN]
      refine ⟨rfl, han, hrn, ?_, hpathn, hspeedn⟩
      simp
    · have hnz : (runTicks ts g n).path_progress ≠ 0 := by
        rw [hpp]
        exact_mod_cast hz
      rw [hrun, loop_hook_fwd_step (ts n) _ han hts hnz hlt]
      refine ⟨?_, han, hrn, ?_, hpathn, hspeedn⟩
      · show (runTicks ts g n).path_progress + 1 = ((n + 1 : ℕ) : ℤ)
        rw [hpp]
        push_cast
        ring
      · show ts n = _
        simp

theorem runTicks_reverse (ts : ℕ → ℚ) (g : Game)
    (ha : g.animating = false) (hr : g.reverse_animating = true)
    (h0 : g.animation_speed ≤ ts 0 - g.last_update)
    (hs : ∀ i, g.animation_speed ≤ ts (i + 1) - ts i)
    (hp : g.path_progress = (g.path.length : ℤ)) :
    ∀ i, i ≤ g.path.length - 1 →
      (runTicks ts g i).path_progress = (g.path.length : ℤ) - (i : ℤ) ∧
      (runTicks ts g i).animating = false ∧
      (runTicks ts g i).reverse_animating = true ∧
      (runTicks ts g i).last_update = (if i = 0 then g.last_update else ts (i - 1)) ∧
      (runTicks ts g i).path = g.path ∧
      (runTicks ts g i).animation_speed = g.animation_speed := by
  intro i
  induction i with
  | zero =>
    intro _
    refine ⟨?_, ha, hr, ?_, rfl, rfl⟩
    · show g.path_progress = (g.path.length : ℤ) - ((0 : ℕ) : ℤ)
      rw [hp]
      push_cast
      ring
    · simp [runTicks]
  | succ n ihn =>
    intro hle
    obtain ⟨hpp, han, hrn, hlun, hpathn, hspeedn⟩ := ihn (Nat.le_of_succ_le hle)
    have hts : (runTicks ts g n).animation_speed ≤
        ts n - (runTicks ts g n).last_update := by
      rw [hspeedn, hlun]
      cases n with
      | zero => simpa using h0
      | succ m => simpa using hs m
    have hgt : 1 < (runTicks ts g n).path_progress := by
      rw [hpp]
      have : n + 1 ≤ g.path.length - 1 := hle
      omega
    have hrun : runTicks ts g (n + 1) = (loop_hook (ts n) (runTicks ts g n)).1 := rfl
    rw [hrun, loop_hook_rev_step (ts n) _ han hrn hts hgt]
    refine ⟨?_, han, hrn, ?_, hpathn, hspeedn⟩
    · show (runTicks ts g n).path_progress - 1 = _
      rw [hpp]
      push_cast
      ring
    · show ts n = _
      simp

/-- **C3**: from Idle with progress 0, the start trigger enters Forward, and
ticks spaced by at least the minimum interval drive `path_progress` through
every value `0, 1, ..., N` in order (`N = len(path)`), after which the
controller returns to Idle with progress `N`; a subsequent trigger enters
Reverse, ticks drive the progress from `N` down through `N - i`, and after
`N` ticks the controller is Idle again with progress ≤ 1. -/
theorem animation_monotone_run (g0 : Game) (t0 t1 : ℚ) (tf tr : ℕ → ℚ)
    (hidle1 : g0.animating = false) (hidle2 : g0.reverse_animating = false)
    (hp0 : g0.path_progress = 0) (hN : 1 ≤ g0.path.length)
    (hf0 : g0.animation_speed ≤ tf 0 - t0)
    (hf : ∀ i, g0.animation_speed ≤ tf (i + 1) - tf i)
    (hr0 : g0.animation_speed ≤ tr 0 - t1)
    (hr : ∀ i, g0.animation_speed ≤ tr (i + 1) - tr i) :
    (key_handler 115 t0 g0).1.animating = true ∧
    (∀ i, i ≤ g0.path.length →
      (runTicks tf (key_handler 115 t0 g0).1 i).path_progress = (i : ℤ)) ∧
    ((runTicks tf (key_handler 115 t0 g0).1 (g0.path.length + 1)).animating = false ∧
      (runTicks tf (key_handler 115 t0 g0).1 (g0.path.length + 1)).reverse_animating
        = false ∧
      (runTicks tf (key_handler 115 t0 g0).1 (g0.path.length + 1)).path_progress
        = (g0.path.length : ℤ)) ∧
    (key_handler 115 t1
        (runTicks tf (key_handler 115 t0 g0).1 (g0.path.length + 1))).1.reverse_animating
      = true ∧
    (∀ i, i ≤ g0.path.length - 1 →
      (runTicks tr
          (key_handler 115 t1
            (runTicks tf (key_handler 115 t0 g0).1 (g0.path.length + 1))).1
          i).path_progress
        = (g0.path.length : ℤ) - (i : ℤ)) ∧
    ((runTicks tr
        (key_handler 115 t1
          (runTicks tf (key_handler 115 t0 g0).1 (g0.path.length + 1))).1
        g0.path.length).animating = false ∧
      (runTicks tr
        (key_handler 115 t1
          (runTicks tf (key_handler 115 t0 g0).1 (g0.path.length + 1))).1
        g0.path.length).reverse_animating = false ∧
      (runTicks tr
        (key_handler 115 t1
          (runTicks tf (key_handler 115 t0 g0).1 (g0.path.length + 1))).1
        g0.path.length).path_progress ≤ 1) := by
  have hplt : g0.path_progress < (g0.path.length : ℤ) := by
    rw [hp0]
    exact_mod_cast hN
  have hkey1 : key_handler 115 t0 g0
      = ({ g0 with animating := true, last_update := t0 }, []) :=
    key_s_fwd t0 g0 hidle1 hidle2 hplt
  have hg1 : (key_handler 115 t0 g0).1
      = { g0 with animating := true, last_update := t0 } := by
    rw [hkey1]
  rw [hg1]
  have hfwd := runTicks_forward tf { g0 with animating := true, last_update := t0 }
    rfl hidle2 hf0 hf hp0
  obtain ⟨hppN, haN, hrN, hluN, hpathN, hspeedN⟩ := hfwd g0.path.length le_rfl
  have htsN : (runTicks tf { g0 with animating := true, last_update := t0 }
        g0.path.length).animation_speed ≤
      tf g0.path.length -
        (runTicks tf { g0 with animating := true, last_update := t0 }
          g0.path.length).last_update := by
    rw [hspeedN, hluN, if_neg (by omega : ¬g0.path.length = 0)]
    have h := hf (g0.path.length - 1)
    rwa [Nat.sub_add_cancel hN] at h
  have hgeN : ((runTicks tf { g0 with animating := true, last_update := t0 }
        g0.path.length).path.length : ℤ) ≤
      (runTicks tf { g0 with animating := true, last_update := t0 }
        g0.path.length).path_progress := by
    rw [hppN, hpathN]
  have hstepN : runTicks tf { g0 with animating := true, last_update := t0 }
        (g0.path.length + 1)
      = (loop_hook (tf g0.path.length)
          (runTicks tf { g0 with animating := true, last_update := t0 }
            g0.path.length)).1 := rfl
  have he2 : runTicks tf { g0 with animating := true, last_update := t0 }
        (g0.path.length + 1)
      = { runTicks tf { g0 with animating := true, last_update := t0 }
            g0.path.length with
          animating := false, last_update := tf g0.path.length } := by
    rw [hstepN, loop_hook_fwd_done _ _ haN htsN hgeN]
  have haS : (runTicks tf { g0 with animating := true, last_update := t0 }
      (g0.path.length + 1)).animating = false := by
    rw [he2]
  have hrS : (runTicks tf { g0 with animating := true, last_update := t0 }
      (g0.path.length + 1)).reverse_animating = false := by
    rw [he2]
    exact hrN
  have hppS : (runTicks tf { g0 with animating := true, last_update := t0 }
      (g0.path.length + 1)).path_progress = (g0.path.length : ℤ) := by
    rw [he2]
    exact hppN
  have hpathS : (runTicks tf { g0 with animating := true, last_update := t0 }
      (g0.path.length + 1)).path = g0.path := by
    rw [he2]
    exact hpathN
  have hspeedS : (runTicks tf { g0 with animating := true, last_update := t0 }
      (g0.path.length + 1)).animation_speed = g0.animation_speed := by
    rw [he2]
    exact hspeedN
  have hpS : ((runTicks tf { g0 with animating := true, last_update := t0 }
        (g0.path.length + 1)).path.length : ℤ) ≤
      (runTicks tf { g0 with animating := true, last_update := t0 }
        (g0.path.length + 1)).path_progress := by
    rw [hppS, hpathS]
  have hkey2 := key_s_rev t1 _ haS hrS hpS
  have hg2 : (key_handler 115 t1
        (runTicks tf { g0 with animating := true, last_update := t0 }
          (g0.path.length + 1))).1
      = { runTicks tf { g0 with animating := true, last_update := t0 }
            (g0.path.length + 1) with
          reverse_animating := true, last_update := t1 } := by
    rw [hkey2]
  rw [hg2]
  have hpath2 : ({ runTicks tf { g0 with animating := true, last_update := t0 }
        (g0.path.length + 1) with
      reverse_animating := true, last_update := t1 } : Game).path = g0.path := hpathS
  have hrev := runTicks_reverse tr
    { runTicks tf { g0 with animating := true, last_update := t0 }
        (g0.path.length + 1) with
      reverse_animating := true, last_update := t1 }
    haS rfl (by rw [show ({ runTicks tf { g0 with animating := true, last_update := t0 }
          (g0.path.length + 1) with
        reverse_animating := true, last_update := t1 } : Game).animation_speed
        = g0.animation_speed from hspeedS]; exact hr0)
    (fun i => by
      rw [show ({ runTicks tf { g0 with animating := true, last_update := t0 }
            (g0.path.length + 1) with
          reverse_animating := true, last_update := t1 } : Game).animation_speed
          = g0.animation_speed from hspeedS]
      exact hr i)
    (by rw [show ({ runTicks tf { g0 with animating := true, last_update := t0 }
          (g0.path.length + 1) with
        reverse_animating := true, last_update := t1 } : Game).path_progress
        = (g0.path.length : ℤ) from hppS, hpath2])
  refine ⟨rfl, ?_, ⟨haS, hrS, hppS⟩, rfl, ?_, ?_⟩
  · intro i hi
    exact (hfwd i hi).1
  · intro i hi
    have hi' : i ≤ ({ runTicks tf { g0 with animating := true, last_update := t0 }
          (g0.path.length + 1) with
        reverse_animating := true, last_update := t1 } : Game).path.length - 1 := by
      rw [hpath2]
      exact hi
    have h := (hrev i hi').1
    rw [hpath2] at h
    exact h
  · -- the final tick of the reverse phase
    obtain ⟨hpp3, ha3, hr3, hlu3, hpath3, hspeed3⟩ := hrev (g0.path.length - 1)
      (by rw [hpath2])
    rw [hpath2] at hpp3
    have hpp1 : (runTicks tr
        { runTicks tf { g0 with animating := true, last_update := t0 }
            (g0.path.length + 1) with
          reverse_animating := true, last_update := t1 }
        (g0.path.length - 1)).path_progress = 1 := by
      rw [hpp3]
      omega
    have hts3 : (runTicks tr
          { runTicks tf { g0 with animating := true, last_update := t0 }
              (g0.path.length + 1) with
            reverse_animating := true, last_update := t1 }
          (g0.path.length - 1)).animation_speed ≤
        tr (g0.path.length - 1) -
          (runTicks tr
            { runTicks tf { g0 with animating := true, last_update := t0 }
                (g0.path.length + 1) with
              reverse_animating := true, last_update := t1 }
            (g0.path.length - 1)).last_update := by
      rw [hspeed3, hlu3]
      by_cases hc : g0.path.length - 1 = 0
      · rw [if_pos hc, hc]
        rw [show ({ runTicks tf { g0 with animating := true, last_update := t0 }
              (g0.path.length + 1) with
            reverse_animating := true, last_update := t1 } : Game).animation_speed
            = g0.animation_speed from hspeedS]
        exact hr0
      · rw [if_neg hc]
        rw [show ({ runTicks tf { g0 with animating := true, last_update := t0 }
              (g0.path.length + 1) with
            reverse_animating := true, last_update := t1 } : Game).animation_speed
            = g0.animation_speed from hspeedS]
        have h := hr (g0.path.length - 1 - 1)
        rwa [Nat.sub_add_cancel (by omega : 1 ≤ g0.path.length - 1)] at h
    have hnlt : ¬1 < (runTicks tr
        { runTicks tf { g0 with animating := true, last_update := t0 }
            (g0.path.length + 1) with
          reverse_animating := true, last_update := t1 }
        (g0.path.length - 1)).path_progress := by
      rw [hpp1]
      omega
    have hdone3 := loop_hook_rev_done (tr (g0.path.length - 1)) _ ha3 hr3 hts3 hnlt
    have hswap : runTicks tr
        { runTicks tf { g0 with animating := true, last_update := t0 }
            (g0.path.length + 1) with
          reverse_animating := true, last_update := t1 }
        g0.path.length
      = (loop_hook (tr (g0.path.length - 1))
          (runTicks tr
            { runTicks tf { g0 with animating := true, last_update := t0 }
                (g0.path.length + 1) with
              reverse_animating := true, last_update := t1 }
            (g0.path.length - 1))).1 := by
      have hM : g0.path.length = g0.path.length - 1 + 1 := by omega
      rw [hM]
      rfl
    have hfinal : runTicks tr
        { runTicks tf { g0 with animating := true, last_update := t0 }
            (g0.path.length + 1) with
          reverse_animating := true, last_update := t1 }
        g0.path.length
      = { runTicks tr
            { runTicks tf { g0 with animating := true, last_update := t0 }
                (g0.path.length + 1) with
              reverse_animating := true, last_update := t1 }
            (g0.path.length - 1) with
          reverse_animating := false, last_update := tr (g0.path.length - 1) } := by
      rw [hswap, hdone3]
    refine ⟨?_, ?_, ?_⟩
    · rw [hfinal]
      exact ha3
    · rw [hfinal]
    · rw [hfinal]
      show (runTicks tr
          { runTicks tf { g0 with animating := true, last_update := t0 }
              (g0.path.length + 1) with
            reverse_animating := true, last_update := t1 }
          (g0.path.length - 1)).path_progress ≤ 1
      rw [hpp1]

theorem bres_points_run (x1 y1 sx sy : ℤ) (a b : ℤ) (ha : 0 ≤ a) (hb : 0 ≤ b)
    (hsx : sx = 1 ∨ sx = -1) (hsy : sy = 1 ∨ sy = -1) :
    ∀ (n : ℕ) (u v : ℤ), 0 ≤ u → u ≤ a → 0 ≤ v → v ≤ b → u + v ≤ (n : ℤ) →
      ∃ ps : List (ℤ × ℤ),
        bres_points x1 y1 sx sy a (-b) (n + 1) (x1 - sx * u) (y1 - sy * v)
            (a - b + u * b - v * a) = some ps ∧
        ps.head? = some (x1 - sx * u, y1 - sy * v) ∧
        (x1, y1) ∈ ps := by
  intro n
  induction n with
  | zero =>
    intro u v hu0 hua hv0 hvb huv
    have hu : u = 0 := by omega
    have hv : v = 0 := by omega
    subst hu
    subst hv
    simp only [mul_zero, sub_zero, zero_mul, add_zero]
    refine ⟨[(x1, y1)], ?_, rfl, by simp⟩
    simp [bres_points]
  | succ n ih =>
    intro u v hu0 hua hv0 hvb huv
    by_cases hz : u = 0 ∧ v = 0
    · obtain ⟨hu, hv⟩ := hz
      subst hu
      subst hv
      simp only [mul_zero, sub_zero, zero_mul, add_zero]
      refine ⟨[(x1, y1)], ?_, rfl, by simp⟩
      simp [bres_points]
    · have hsx' : sx ≠ 0 := by rcases hsx with h | h <;> simp [h]
      have hsy' : sy ≠ 0 := by rcases hsy with h | h <;> simp [h]
      have hsxsq : sx * sx = 1 := by rcases hsx with h | h <;> simp [h]
      have hne : ¬(x1 - sx * u = x1 ∧ y1 - sy * v = y1) := by
        rintro ⟨h1, h2⟩
        have hu : u = 0 := by
          have hmul : sx * u = 0 := by linarith
          rcases mul_eq_zero.mp hmul with h | h
          · exact absurd h hsx'
          · exact h
        have hv : v = 0 := by
          have hmul : sy * v = 0 := by linarith
          rcases mul_eq_zero.mp hmul with h | h
          · exact absurd h hsy'
          · exact h
        exact hz ⟨hu, hv⟩
      have hxu : -b ≤ 2 * (a - b + u * b - v * a) → 1 ≤ u := by
        intro hx
        by_contra hcon
        have hu : u = 0 := by omega
        subst hu
        have hv1 : 1 ≤ v := by omega
        nlinarith [mul_nonneg ha (by omega : (0 : ℤ) ≤ v - 1)]
      have hyv : 2 * (a - b + u * b - v * a) ≤ a → 1 ≤ v := by
        intro hy
        by_contra hcon
        have hv : v = 0 := by omega
        subst hv
        have hu1 : 1 ≤ u := by omega
        nlinarith [mul_nonneg hb (by omega : (0 : ℤ) ≤ u - 1)]
      have hone : -b ≤ 2 * (a - b + u * b - v * a) ∨ 2 * (a - b + u * b - v * a) ≤ a := by
        by_contra hcon
        push_neg at hcon
        obtain ⟨h1, h2⟩ := hcon
        linarith
      by_cases hxf : -b ≤ 2 * (a - b + u * b - v * a) <;>
        by_cases hyf : 2 * (a - b + u * b - v * a) ≤ a
      · -- both axes step
        have hu1 := hxu hxf
        have hv1 := hyv hyf
        obtain ⟨ps, hps, hhead, hmem⟩ := ih (u - 1) (v - 1) (by omega) (by omega)
          (by omega) (by omega) (by push_cast at huv ⊢; omega)
        have hx' : x1 - sx * (u - 1) = x1 - sx * u + sx := by ring
        have hy' : y1 - sy * (v - 1) = y1 - sy * v + sy := by ring
        have he' : a - b + (u - 1) * b - (v - 1) * a
            = a - b + u * b - v * a + -b + a := by ring
        rw [hx', hy', he'] at hps
        refine ⟨(x1 - sx * u, y1 - sy * v) :: ps, ?_, by simp,
          List.mem_cons_of_mem _ hmem⟩
        rw [bres_points]
        simp only [if_neg hne, if_pos hxf, if_pos hyf]
        rw [hps]
      · -- only the x axis steps
        have hu1 := hxu hxf
        obtain ⟨ps, hps, hhead, hmem⟩ := ih (u - 1) v (by omega) (by omega)
          (by omega) (by omega) (by push_cast at huv ⊢; omega)
        have hx' : x1 - sx * (u - 1) = x1 - sx * u + sx := by ring
        have he' : a - b + (u - 1) * b - v * a
            = a - b + u * b - v * a + -b := by ring
        rw [hx', he'] at hps
        refine ⟨(x1 - sx * u, y1 - sy * v) :: ps, ?_, by simp,
          List.mem_cons_of_mem _ hmem⟩
        rw [bres_points]
        simp only [if_neg hne, if_pos hxf, if_neg hyf]
        rw [hps]
      · -- only the y axis steps
        have hv1 := hyv hyf
        obtain ⟨ps, hps, hhead, hmem⟩ := ih u (v - 1) (by omega) (by omega)
          (by omega) (by omega) (by push_cast at huv ⊢; omega)
        have hy' : y1 - sy * (v - 1) = y1 - sy * v + sy := by ring
        have he' : a - b + u * b - (v - 1) * a
            = a - b + u * b - v * a + a := by ring
        rw [hy', he'] at hps
        refine ⟨(x1 - sx * u, y1 - sy * v) :: ps, ?_, by simp,
          List.mem_cons_of_mem _ hmem⟩
        rw [bres_points]
        simp only [if_neg hne, if_neg hxf, if_pos hyf]
        rw [hps]
      · rcases hone with h | h
        · exact absurd h hxf
        · exact absurd h hyf

theorem center_mem_thick_calls (img : Img) (th x y : ℤ) :
    (⟨img, x, y⟩ : DrawCall) ∈ thick_calls img th x y := by
  unfold thick_calls
  split_ifs with h
  · simp
  · have ht : 1 ≤ th.fdiv 2 := by
      rw [Int.fdiv_eq_ediv _ (by norm_num)]
      omega
    refine List.mem_flatMap.mpr ⟨0, ?_, ?_⟩
    · rw [mem_pyRange2]
      omega
    · refine List.mem_map.mpr ⟨0, ?_, ?_⟩
      · rw [mem_pyRange2]
        omega
      · simp

/-- **C9**: for every pair of integer endpoints and every thickness, the
Bresenham loop of `draw_line_bresenham` terminates (the chosen fuel is never
exhausted), and the stepped points at which it draws include both endpoints —
in particular a draw call centred at each endpoint is emitted for every
thickness. -/
theorem bresenham_terminates_inclusive (g : Game) (img : Img)
    (x0 y0 x1 y1 thickness : ℤ) :
    (bres_points_opt x0 y0 x1 y1).isSome = true ∧
    (x0, y0) ∈ draw_line_points x0 y0 x1 y1 ∧
    (x1, y1) ∈ draw_line_points x0 y0 x1 y1 ∧
    (⟨img, x0, y0⟩ : DrawCall) ∈ draw_line_bresenham g x0 y0 x1 y1 img thickness ∧
    (⟨img, x1, y1⟩ : DrawCall) ∈ draw_line_bresenham g x0 y0 x1 y1 img thickness := by
  have ha : (0 : ℤ) ≤ |x1 - x0| := abs_nonneg _
  have hb : (0 : ℤ) ≤ |y1 - y0| := abs_nonneg _
  have hsx : (if x0 < x1 then (1 : ℤ) else -1) = 1 ∨
      (if x0 < x1 then (1 : ℤ) else -1) = -1 := by
    split_ifs <;> simp
  have hsy : (if y0 < y1 then (1 : ℤ) else -1) = 1 ∨
      (if y0 < y1 then (1 : ℤ) else -1) = -1 := by
    split_ifs <;> simp
  have hx0 : x1 - (if x0 < x1 then (1 : ℤ) else -1) * |x1 - x0| = x0 := by
    split_ifs with h
    · rw [abs_of_nonneg (by omega : (0 : ℤ) ≤ x1 - x0)]
      ring
    · rw [abs_of_nonpos (by omega : x1 - x0 ≤ 0)]
      ring
  have hy0 : y1 - (if y0 < y1 then (1 : ℤ) else -1) * |y1 - y0| = y0 := by
    split_ifs with h
    · rw [abs_of_nonneg (by omega : (0 : ℤ) ≤ y1 - y0)]
      ring
    · rw [abs_of_nonpos (by omega : y1 - y0 ≤ 0)]
      ring
  obtain ⟨ps, hps, hhead, hmem⟩ := bres_points_run x1 y1
    (if x0 < x1 then (1 : ℤ) else -1) (if y0 < y1 then (1 : ℤ) else -1)
    |x1 - x0| |y1 - y0| ha hb hsx hsy
    ((x1 - x0).natAbs + (y1 - y0).natAbs) |x1 - x0| |y1 - y0|
    ha le_rfl hb le_rfl
    (by rw [Int.abs_eq_natAbs, Int.abs_eq_natAbs]; push_cast; omega)
  rw [hx0, hy0] at hps hhead
  rw [show |x1 - x0| - |y1 - y0| + |x1 - x0| * |y1 - y0| - |y1 - y0| * |x1 - x0|
      = |x1 - x0| + -|y1 - y0| from by ring] at hps
  have hopt : bres_points_opt x0 y0 x1 y1 = some ps := hps
  have hdlp : draw_line_points x0 y0 x1 y1 = ps := by
    unfold draw_line_points
    rw [hopt]
    rfl
  have hmem0 : (x0, y0) ∈ draw_line_points x0 y0 x1 y1 := by
    rw [hdlp]
    exact List.mem_of_mem_head? (Option.mem_def.mpr hhead)
  have hmem1 : (x1, y1) ∈ draw_line_points x0 y0 x1 y1 := by
    rw [hdlp]
    exact hmem
  refine ⟨by rw [hopt]; rfl, hmem0, hmem1, ?_, ?_⟩
  · exact List.mem_flatMap.mpr ⟨(x0, y0), hmem0, center_mem_thick_calls img thickness x0 y0⟩
  · exact List.mem_flatMap.mpr ⟨(x1, y1), hmem1, center_mem_thick_calls img thickness x1 y1⟩

/-- Tick schedule for the forward phase of the run witness. -/
def tfWitness (i : ℕ) : ℚ := 1 + i

/-- Tick schedule for the reverse phase of the run witness. -/
def trWitness (i : ℕ) : ℚ := 101 + i

theorem tfWitness_first : sampleGame.animation_speed ≤ tfWitness 0 - 0 := by
  show (1 : ℚ) ≤ 1 + ((0 : ℕ) : ℚ) - 0
  norm_num

theorem tfWitness_gap (i : ℕ) :
    sampleGame.animation_speed ≤ tfWitness (i + 1) - tfWitness i := by
  show (1 : ℚ) ≤ (1 + ((i + 1 : ℕ) : ℚ)) - (1 + (i : ℚ))
  push_cast
  linarith

theorem trWitness_first : sampleGame.animation_speed ≤ trWitness 0 - 100 := by
  show (1 : ℚ) ≤ 101 + ((0 : ℕ) : ℚ) - 100
  norm_num

theorem trWitness_gap (i : ℕ) :
    sampleGame.animation_speed ≤ trWitness (i + 1) - trWitness i := by
  show (1 : ℚ) ≤ (101 + ((i + 1 : ℕ) : ℚ)) - (101 + (i : ℚ))
  push_cast
  linarith

/-- Witness for the animation run: the end-to-end scenario on the sample game
(moves "EESS", N = 5). -/
theorem animation_monotone_run_witness :
    (∀ i, i ≤ sampleGame.path.length →
      (runTicks tfWitness (key_handler 115 0 sampleGame).1 i).path_progress = (i : ℤ)) ∧
    (runTicks trWitness
        (key_handler 115 100
          (runTicks tfWitness (key_handler 115 0 sampleGame).1
            (sampleGame.path.length + 1))).1
        sampleGame.path.length).reverse_animating = false ∧
    (runTicks trWitness
        (key_handler 115 100
          (runTicks tfWitness (key_handler 115 0 sampleGame).1
            (sampleGame.path.length + 1))).1
        sampleGame.path.length).path_progress ≤ 1 := by
  have h := animation_monotone_run sampleGame 0 100 tfWitness trWitness rfl rfl rfl
    (by decide) tfWitness_first tfWitness_gap trWitness_first trWitness_gap
  exact ⟨h.2.1, h.2.2.2.2.2.2.1, h.2.2.2.2.2.2.2⟩

/-- Witness for the shortening theorem: interior segment 2 of the sample
game's length-5 path uses true centers. -/
theorem segment_shortening_witness :
    3 ≤ sampleGame.path.length ∧
    draw_path_segment sampleGame (0, 1) (0, 2) 2 Img.redPx =
      draw_line_bresenham sampleGame (cell_center_px sampleGame (0, 1)).1
        (cell_center_px sampleGame (0, 1)).2 (cell_center_px sampleGame (0, 2)).1
        (cell_center_px sampleGame (0, 2)).2 Img.redPx LINE_THICKNESS :=
  ⟨by decide,
   (segment_shortening sampleGame Img.redPx (by decide)).2.1 (0, 1) (0, 2) 2
     (by decide) (by decide)⟩

end AMazeIng
